import Mathlib

/-
Verification development for the customer/order query-and-mutation service
of the dashboard repository.

Shallow embedding of:
  src/src/lib/mockData.ts                      (data model, store operations)
  src/src/pages/api/customers.ts               (GET/PATCH /customers handler)
  src/src/pages/api/customers/[id]/orders.ts   (GET/PATCH /customers/{id}/orders handler)

Modelling conventions:
  - JS numbers are modelled as `Int` (prices, revenue, measurements); the
    claims under study do not depend on float rounding, only on ordering,
    summation and sign.
  - JS `Array.prototype.sort` with a comparator is stable (ES2019); it is
    modelled by `List.insertionSort` over the relation `cmp a b ≤ 0`,
    which is a stable sort.
  - Absent request-body strings and empty strings are both falsy in the
    JS guards (`!customerId`), so body string fields are modelled as
    `String` with `""` standing for missing/empty.
  - The faker randomness is modelled by passing the drawn values
    explicitly (`GenDraws`, and the item/order lists fed to the
    generator helpers).
-/

namespace Dashboard

open scoped List

/-! ## Domain model (src/src/lib/mockData.ts, interfaces at lines 10-41) -/

structure CustomSize where
  chest : Int
  waist : Int
  hips : Int
deriving DecidableEq

structure OrderItem where
  orderItemId : String
  itemName : String
  category : String
  price : Int
  customSize : CustomSize
deriving DecidableEq

structure Order where
  orderId : String
  orderDate : String
  totalAmount : Int
  items : List OrderItem
deriving DecidableEq

structure Customer where
  id : String
  name : String
  email : String
  status : String
  revenue : Int
  createdAt : String
  orderCount : Int
  lastOrderDate : Option String
  _orders : List Order
deriving DecidableEq

/-- Summary view: every Customer field except the owned `_orders`
(mockData.ts `getCustomerSummary`, lines 146-149). -/
structure CustomerSummary where
  id : String
  name : String
  email : String
  status : String
  revenue : Int
  createdAt : String
  orderCount : Int
  lastOrderDate : Option String
deriving DecidableEq

def getCustomerSummary (c : Customer) : CustomerSummary :=
  { id := c.id, name := c.name, email := c.email, status := c.status,
    revenue := c.revenue, createdAt := c.createdAt, orderCount := c.orderCount,
    lastOrderDate := c.lastOrderDate }

/-! ## Order generation (mockData.ts lines 74-101)

`generateOrders` draws a random list of orders, each from a random item
list; the randomness is modelled by passing the drawn raw data as an
argument.  The `.sort` by `new Date(...).getTime()` is modelled as a sort
on the date string; the invariants under study are order-independent. -/

def sumPrices (items : List OrderItem) : Int :=
  (items.map OrderItem.price).sum

/-- One order as built inside `generateOrders` (lines 76-83):
`totalAmount` is the sum of the item prices at creation. -/
def mkOrder (oid odate : String) (items : List OrderItem) : Order :=
  { orderId := oid, orderDate := odate, totalAmount := sumPrices items, items := items }

def generateOrders (draws : List (String × String × List OrderItem)) : List Order :=
  List.insertionSort (fun a b => a.orderDate ≤ b.orderDate)
    (draws.map (fun d => mkOrder d.1 d.2.1 d.2.2))

/-- The faker draws consumed by `createCustomerWithId` (status, createdAt,
and the generated order list). -/
structure GenDraws where
  status : String
  createdAt : String
  orders : List Order
deriving DecidableEq

/-- Transcription of `createCustomerWithId` (mockData.ts lines 88-101):
`revenue` is the sum of order totals, `orderCount` the number of orders,
`lastOrderDate` the date of the last order or null. -/
def createCustomerWithId (id name email : String) (g : GenDraws) : Customer :=
  { id := id, name := name, email := email, status := g.status,
    revenue := (g.orders.map Order.totalAmount).sum,
    createdAt := g.createdAt,
    orderCount := (g.orders.length : Int),
    lastOrderDate := (g.orders.getLast?).map Order.orderDate,
    _orders := g.orders }

/-! ## Store operations (mockData.ts lines 151-196)

The global `mockCustomers` array is passed explicitly as a `List Customer`.
The in-place mutations are modelled as functions returning the new store;
`Option` models the boolean success flag (`none` = `false`, store
unchanged). -/

/-- Transcription of `getCustomerById` (lines 151-167): find first customer
with the given id; on a miss, create a fallback customer (name
"Fallback Customer", email "fallback@example.com") and push it onto the
collection.  The result type is `Option Customer` mirroring the TS
signature `Customer | undefined`. -/
def getCustomerByIdOpt (g : GenDraws) (id : String) (store : List Customer) :
    Option Customer × List Customer :=
  match store.find? (fun c => c.id == id) with
  | some c => (some c, store)
  | none =>
    let c := createCustomerWithId id "Fallback Customer" "fallback@example.com" g
    (some c, store ++ [c])

/-- Transcription of `updateCustomerStatus` (lines 169-177): find the first
customer with the given id and set its `status`; `none` when no match. -/
def updateCustomerStatus (cid st : String) : List Customer → Option (List Customer)
  | [] => none
  | c :: rest =>
    if c.id = cid then some ({ c with status := st } :: rest)
    else (updateCustomerStatus cid st rest).map (c :: ·)

/-- Inner step of `updateOrderItemSize`: `order.items.find(...)` then
`orderItem.customSize = customSize` (lines 191-194), on the first item
whose `orderItemId` matches. -/
def setItemSize (iid : String) (sz : CustomSize) : List OrderItem → Option (List OrderItem)
  | [] => none
  | it :: rest =>
    if it.orderItemId = iid then some ({ it with customSize := sz } :: rest)
    else (setItemSize iid sz rest).map (it :: ·)

/-- Middle step of `updateOrderItemSize`: `customer._orders.find(...)`
(lines 188-189), then the item update inside the first matching order. -/
def setOrderItemInOrders (oid iid : String) (sz : CustomSize) : List Order → Option (List Order)
  | [] => none
  | o :: rest =>
    if o.orderId = oid then
      (setItemSize iid sz o.items).map (fun its => { o with items := its } :: rest)
    else (setOrderItemInOrders oid iid sz rest).map (o :: ·)

/-- Transcription of `updateOrderItemSize` (mockData.ts lines 179-196):
customer → order → item lookup by id, each on the first match, failing at
the first missing link; on success only the found item's `customSize` is
replaced. -/
def updateOrderItemSize (cid oid iid : String) (sz : CustomSize) :
    List Customer → Option (List Customer)
  | [] => none
  | c :: rest =>
    if c.id = cid then
      (setOrderItemInOrders oid iid sz c._orders).map (fun os => { c with _orders := os } :: rest)
    else (updateOrderItemSize cid oid iid sz rest).map (c :: ·)

/-- A mutation of the store, as exposed by the two PATCH endpoints. -/
inductive Mutation where
  | setStatus (cid st : String)
  | setSize (cid oid iid : String) (sz : CustomSize)
deriving DecidableEq

def applyMutation (store : List Customer) (m : Mutation) : List Customer :=
  match m with
  | .setStatus cid st =>
    match updateCustomerStatus cid st store with
    | some s => s
    | none => store
  | .setSize cid oid iid sz =>
    match updateOrderItemSize cid oid iid sz store with
    | some s => s
    | none => store

def applyMutations (ms : List Mutation) (store : List Customer) : List Customer :=
  ms.foldl applyMutation store

/-- Invariant of §3 of the spec: an order's `totalAmount` equals the sum of
its items' prices. -/
def orderInv (o : Order) : Prop :=
  o.totalAmount = sumPrices o.items

/-- The invariant over a whole store. -/
def storeInv (store : List Customer) : Prop :=
  ∀ c ∈ store, ∀ o ∈ c._orders, orderInv o

/-! ## Search filter (customers.ts lines 20-27) -/

/-- Substring test on character lists, mirroring JS `String.includes`. -/
def hasSub : List Char → List Char → Bool
  | hay, needle =>
    needle.isPrefixOf hay ||
      match hay with
      | [] => false
      | _ :: t => hasSub t needle

/-- JS `toLowerCase`, modelled per character on the string's data
(`String.toLower` is the same map, but this form reduces in the kernel). -/
def lowerData (s : String) : List Char := s.data.map Char.toLower

/-- The filter predicate of lines 23-26: name or email, lowercased,
contains the lowercased search string. -/
def matchesSearch (search : String) (c : Customer) : Bool :=
  hasSub (lowerData c.name) (lowerData search) || hasSub (lowerData c.email) (lowerData search)

/-- Lines 21-27: the filter runs only when `search` is truthy (non-empty). -/
def filterStep (search : String) (l : List Customer) : List Customer :=
  if search = "" then l else l.filter (matchesSearch search)

/-! ## Sort step (customers.ts lines 29-52) -/

/-- The sortable Customer summary fields (`sortBy` keys). -/
inductive SortKey where
  | id | name | email | status | revenue | createdAt | orderCount | lastOrderDate
deriving DecidableEq

/-- A field value as seen by the comparator: a JS string or number. -/
inductive FieldVal where
  | str (s : String)
  | num (n : Int)
deriving DecidableEq

/-- Lookup `a[sortBy]`; only `lastOrderDate` can be null. -/
def fieldVal : SortKey → Customer → Option FieldVal
  | .id, c => some (.str c.id)
  | .name, c => some (.str c.name)
  | .email, c => some (.str c.email)
  | .status, c => some (.str c.status)
  | .revenue, c => some (.num c.revenue)
  | .createdAt, c => some (.str c.createdAt)
  | .orderCount, c => some (.num c.orderCount)
  | .lastOrderDate, c => c.lastOrderDate.map .str

/-- Lines 46-48: `result = 0; if (a < b) result = -1; else if (a > b) result = 1`. -/
def cmpOf {α : Type} [LinearOrder α] (a b : α) : Int :=
  if a < b then -1 else if b < a then 1 else 0

/-- Lines 46-48 applied to JS strings: the relational operators compare
code units lexicographically, so the comparison result is the
lexicographic comparison of the character lists. -/
def cmpChars : List Char → List Char → Int
  | [], [] => 0
  | [], _ :: _ => -1
  | _ :: _, [] => 1
  | a :: as, b :: bs => if a < b then -1 else if b < a then 1 else cmpChars as bs

/-- Value comparison of lines 41-48: strings are lowercased first
(case-insensitive compare), numbers compared directly.  The two
cross-variant cases never arise for a single sortKey (each key yields one
value type); they are fixed arbitrarily but consistently so that the
comparator is a total preorder. -/
def cmpVal : FieldVal → FieldVal → Int
  | .str a, .str b => cmpChars (lowerData a) (lowerData b)
  | .num a, .num b => cmpOf a b
  | .num _, .str _ => -1
  | .str _, .num _ => 1

/-- The full comparator body of lines 31-50: null checks first (lines
36-38, returning early, not affected by `order`), then the value
comparison, negated when `order === 'desc'` (line 50). -/
def cmpOptV (desc : Bool) : Option FieldVal → Option FieldVal → Int
  | none, none => 0
  | none, some _ => 1
  | some _, none => -1
  | some x, some y => if desc then -(cmpVal x y) else cmpVal x y

def cmpCustomer (k : SortKey) (desc : Bool) (a b : Customer) : Int :=
  cmpOptV desc (fieldVal k a) (fieldVal k b)

/-- The sort of lines 31-51: JS `Array.prototype.sort` is a stable sort
(ES2019), modelled by insertion sort over `cmp a b ≤ 0`. -/
def sortStep (k : SortKey) (desc : Bool) (l : List Customer) : List Customer :=
  List.insertionSort (fun a b => cmpCustomer k desc a b ≤ 0) l

/-! ## GET /customers (customers.ts lines 8-77) -/

structure Pagination where
  currentPage : Nat
  totalPages : Nat
  totalItems : Nat
  itemsPerPage : Nat
deriving DecidableEq

structure CustomersResponse where
  customers : List CustomerSummary
  pagination : Pagination
deriving DecidableEq

/-- The GET pipeline of lines 18-73: filter, sort, slice
`[(page-1)*limit, (page-1)*limit + limit)`, project to summaries; the
pagination block computes `totalPages = ceil(totalItems / limit)`
(`Math.ceil` on floats at line 69, modelled for `limit ≥ 1` by the
integer formula `(n + limit - 1) / limit`). -/
def getCustomersHandler (search : String) (k : SortKey) (desc : Bool)
    (page limit : Nat) (store : List Customer) : CustomersResponse :=
  let filtered := filterStep search store
  let sorted := sortStep k desc filtered
  let startIndex := (page - 1) * limit
  { customers := ((sorted.drop startIndex).take limit).map getCustomerSummary,
    pagination :=
      { currentPage := page,
        totalPages := (filtered.length + limit - 1) / limit,
        totalItems := filtered.length,
        itemsPerPage := limit } }

/-! ## PATCH /customers (customers.ts lines 78-111) -/

inductive PatchStatusResult where
  | missingFields
  | invalidStatus
  | notFound
  | ok
deriving DecidableEq

def validStatuses : List String := ["active", "churned", "prospect"]

/-- Transcription of the PATCH branch: line 84 missing-field check
(`!customerId || !status`; an empty string is falsy), line 90 status
whitelist, then `updateCustomerStatus` with 404 on failure. -/
def patchCustomersHandler (customerId status : String) (store : List Customer) :
    PatchStatusResult × List Customer :=
  if customerId = "" ∨ status = "" then (.missingFields, store)
  else if validStatuses.contains status then
    match updateCustomerStatus customerId status store with
    | some store' => (.ok, store')
    | none => (.notFound, store)
  else (.invalidStatus, store)

/-! ## GET /customers/{id}/orders (orders.ts lines 9-27) -/

inductive GetOrdersResult where
  | ok (orders : List Order)
  | notFoundErr
deriving DecidableEq

/-- Transcription of the GET branch: `getCustomerById`, 404 when it yields
undefined, otherwise 200 with the full `_orders` graph. -/
def getOrdersHandler (g : GenDraws) (id : String) (store : List Customer) :
    GetOrdersResult × List Customer :=
  match getCustomerByIdOpt g id store with
  | (some c, store') => (.ok c._orders, store')
  | (none, store') => (.notFoundErr, store')

/-! ## PATCH /customers/{id}/orders (orders.ts lines 28-71) -/

/-- A JSON value as it can appear in the request body. -/
inductive JsonVal where
  | num (n : Int)
  | str (s : String)
  | null
deriving DecidableEq

/-- The `customSize` body object; `none` fields are absent keys. -/
structure SizeBody where
  chest : Option JsonVal
  waist : Option JsonVal
  hips : Option JsonVal
deriving DecidableEq

/-- JS `typeof v === 'number'` on a possibly-absent field. -/
def isNumber : Option JsonVal → Bool
  | some (.num _) => true
  | _ => false

def numVal : Option JsonVal → Int
  | some (.num n) => n
  | _ => 0

inductive PatchItemResult where
  | missingFields
  | invalidSize
  | notFound
  | ok (item : Option OrderItem)
deriving DecidableEq

/-- Transcription of the PATCH branch of orders.ts: line 34 missing-field
check; lines 39-43 validate only `typeof === 'number'` on chest, waist,
hips; then `updateOrderItemSize`, and on success the item is re-fetched
through `getCustomerById` (lines 56-58). -/
def patchOrdersHandler (g : GenDraws) (id orderId orderItemId : String)
    (customSize : Option SizeBody) (store : List Customer) :
    PatchItemResult × List Customer :=
  match customSize with
  | none => (.missingFields, store)
  | some sz =>
    if orderId = "" ∨ orderItemId = "" then (.missingFields, store)
    else if isNumber sz.chest && isNumber sz.waist && isNumber sz.hips then
      match updateOrderItemSize id orderId orderItemId
          ⟨numVal sz.chest, numVal sz.waist, numVal sz.hips⟩ store with
      | some store' =>
        let rf := getCustomerByIdOpt g id store'
        let item := rf.1.bind (fun c =>
          (c._orders.find? (fun o => o.orderId == orderId)).bind (fun o =>
            o.items.find? (fun it => it.orderItemId == orderItemId)))
        (.ok item, rf.2)
      | none => (.notFound, store)
    else (.invalidSize, store)

/-! ## Concrete fixtures for witnesses and counterexamples -/

def szA : CustomSize := ⟨40, 32, 38⟩

def itemA : OrderItem :=
  { orderItemId := "i1", itemName := "Custom Wool Suit", category := "Suits",
    price := 500, customSize := ⟨38, 30, 36⟩ }

def itemB : OrderItem :=
  { orderItemId := "i2", itemName := "Evening Gown", category := "Dresses",
    price := 300, customSize := ⟨36, 28, 34⟩ }

def orderA : Order :=
  { orderId := "o1", orderDate := "2024-01-05", totalAmount := 800,
    items := [itemA, itemB] }

def custA : Customer :=
  { id := "c1", name := "Ann Smith", email := "ann@example.com", status := "active",
    revenue := 800, createdAt := "2023-06-01", orderCount := 1,
    lastOrderDate := some "2024-01-05", _orders := [orderA] }

def custB : Customer :=
  { id := "c2", name := "Bob Jones", email := "bob@example.com", status := "prospect",
    revenue := 0, createdAt := "2023-07-01", orderCount := 0,
    lastOrderDate := none, _orders := [] }

def custAnn2 : Customer :=
  { id := "c3", name := "Ann Smith", email := "ann2@example.com", status := "churned",
    revenue := 10, createdAt := "2023-08-01", orderCount := 0,
    lastOrderDate := none, _orders := [] }

def gTest : GenDraws :=
  { status := "prospect", createdAt := "2024-02-02", orders := [] }

def storeAB : List Customer := [custA, custB]

/-! ## Comparator lemmas -/

theorem cmpOf_nonpos {α : Type} [LinearOrder α] (a b : α) : cmpOf a b ≤ 0 ↔ a ≤ b := by
  unfold cmpOf
  split_ifs with h1 h2
  · exact iff_of_true (by norm_num) (le_of_lt h1)
  · exact iff_of_false (by norm_num) (not_le.mpr h2)
  · exact iff_of_true le_rfl (not_lt.mp h2)

theorem cmpOf_swap {α : Type} [LinearOrder α] (a b : α) : cmpOf b a = -cmpOf a b := by
  rcases lt_trichotomy a b with h | h | h
  · simp [cmpOf, h, asymm h]
  · subst h; simp [cmpOf, lt_irrefl]
  · simp [cmpOf, h, asymm h]

theorem cmpChars_swap : ∀ (a b : List Char), cmpChars b a = -cmpChars a b
  | [], [] => by norm_num [cmpChars]
  | [], _ :: _ => by norm_num [cmpChars]
  | _ :: _, [] => by norm_num [cmpChars]
  | a :: as, b :: bs => by
    rcases lt_trichotomy a b with h | h | h
    · simp [cmpChars, h, asymm h]
    · subst h
      simp [cmpChars, lt_irrefl, cmpChars_swap as bs]
    · simp [cmpChars, h, asymm h]

theorem cmpChars_trans : ∀ {a b c : List Char},
    cmpChars a b ≤ 0 → cmpChars b c ≤ 0 → cmpChars a c ≤ 0
  | [], _, [] => fun _ _ => by norm_num [cmpChars]
  | [], _, _ :: _ => fun _ _ => by norm_num [cmpChars]
  | _ :: _, [], _ => fun h1 _ => absurd h1 (by norm_num [cmpChars])
  | _ :: _, _ :: _, [] => fun _ h2 => absurd h2 (by norm_num [cmpChars])
  | x :: xs, y :: ys, z :: zs => fun h1 h2 => by
    simp only [cmpChars] at h1 h2 ⊢
    rcases lt_trichotomy x y with hxy | hxy | hxy
    · rcases lt_trichotomy y z with hyz | hyz | hyz
      · rw [if_pos (lt_trans hxy hyz)]; norm_num
      · subst hyz; rw [if_pos hxy]; norm_num
      · rw [if_neg (asymm hyz), if_pos hyz] at h2; exact absurd h2 (by norm_num)
    · subst hxy
      rcases lt_trichotomy x z with hxz | hxz | hxz
      · rw [if_pos hxz]; norm_num
      · subst hxz
        rw [if_neg (lt_irrefl x), if_neg (lt_irrefl x)] at h1 h2 ⊢
        exact cmpChars_trans h1 h2
      · rw [if_neg (asymm hxz), if_pos hxz] at h2; exact absurd h2 (by norm_num)
    · rw [if_neg (asymm hxy), if_pos hxy] at h1; exact absurd h1 (by norm_num)

theorem cmpVal_swap : ∀ (x y : FieldVal), cmpVal y x = -cmpVal x y
  | .str a, .str b => cmpChars_swap (lowerData a) (lowerData b)
  | .num a, .num b => cmpOf_swap a b
  | .num _, .str _ => by norm_num [cmpVal]
  | .str _, .num _ => by norm_num [cmpVal]

theorem cmpVal_trans : ∀ {x y z : FieldVal},
    cmpVal x y ≤ 0 → cmpVal y z ≤ 0 → cmpVal x z ≤ 0 := by
  intro x y z h1 h2
  cases x <;> cases y <;> cases z <;>
    simp only [cmpVal, cmpOf_nonpos] at h1 h2 ⊢ <;>
    first
      | exact le_trans h1 h2
      | exact cmpChars_trans h1 h2
      | exact absurd h1 (by decide)
      | exact absurd h2 (by decide)
      | decide

theorem cmpOptV_swap (d : Bool) : ∀ (x y : Option FieldVal), cmpOptV d y x = -(cmpOptV d x y)
  | none, none => by simp [cmpOptV]
  | none, some _ => by norm_num [cmpOptV]
  | some _, none => by norm_num [cmpOptV]
  | some x, some y => by
    cases d <;> simp [cmpOptV, cmpVal_swap x y]

theorem cmpOptV_trans (d : Bool) {x y z : Option FieldVal}
    (h1 : cmpOptV d x y ≤ 0) (h2 : cmpOptV d y z ≤ 0) : cmpOptV d x z ≤ 0 := by
  match x, y, z with
  | none, none, none => exact h1
  | none, none, some _ => exact h2
  | none, some _, _ => exact absurd h1 (by simp [cmpOptV])
  | some _, none, some _ => exact absurd h2 (by simp [cmpOptV])
  | some _, none, none => simp [cmpOptV]
  | some _, some _, none => simp [cmpOptV]
  | some a, some b, some c =>
    simp only [cmpOptV] at h1 h2 ⊢
    cases d
    · simp only [Bool.false_eq_true, if_false] at h1 h2 ⊢
      exact cmpVal_trans h1 h2
    · simp only [if_true] at h1 h2 ⊢
      rw [neg_nonpos] at h1 h2 ⊢
      have hba : cmpVal b a ≤ 0 := by rw [cmpVal_swap]; omega
      have hcb : cmpVal c b ≤ 0 := by rw [cmpVal_swap]; omega
      have hca := cmpVal_trans hcb hba
      rw [cmpVal_swap] at hca
      omega

theorem cmpCustomer_swap (k : SortKey) (d : Bool) (a b : Customer) :
    cmpCustomer k d b a = -(cmpCustomer k d a b) :=
  cmpOptV_swap d _ _

theorem cmpCustomer_trans {k : SortKey} {d : Bool} {a b c : Customer}
    (h1 : cmpCustomer k d a b ≤ 0) (h2 : cmpCustomer k d b c ≤ 0) :
    cmpCustomer k d a c ≤ 0 :=
  cmpOptV_trans d h1 h2

theorem cmpCustomer_total (k : SortKey) (d : Bool) (a b : Customer) :
    cmpCustomer k d a b ≤ 0 ∨ cmpCustomer k d b a ≤ 0 := by
  have h := cmpCustomer_swap k d a b
  omega

theorem cmpCustomer_none_le {k : SortKey} {d : Bool} {a b : Customer}
    (ha : fieldVal k a = none) (h : cmpCustomer k d a b ≤ 0) : fieldVal k b = none := by
  unfold cmpCustomer at h
  rw [ha] at h
  cases hb : fieldVal k b
  · rfl
  · rw [hb] at h; simp [cmpOptV] at h

/-! ## Sort step structure -/

theorem sortStep_perm (k : SortKey) (d : Bool) (l : List Customer) : sortStep k d l ~ l :=
  List.perm_insertionSort _ l

theorem sortStep_sorted (k : SortKey) (d : Bool) (l : List Customer) :
    (sortStep k d l).Sorted (fun a b => cmpCustomer k d a b ≤ 0) := by
  haveI : IsTotal Customer (fun a b => cmpCustomer k d a b ≤ 0) :=
    ⟨fun a b => cmpCustomer_total k d a b⟩
  haveI : IsTrans Customer (fun a b => cmpCustomer k d a b ≤ 0) :=
    ⟨fun _ _ _ h1 h2 => cmpCustomer_trans h1 h2⟩
  exact List.sorted_insertionSort _ l

/-- C1: the sort step of GET /customers is a stable sort by the sortKey:
the output is a permutation of the input, sorted under the comparator;
string fields compare case-insensitively (lowercased before comparing);
customers whose sortKey value is null come after all non-null ones in the
output regardless of direction; `desc` negates the comparison result
exactly on non-null pairs (null comparisons are unaffected by direction);
and tied customers (comparator 0) keep their relative input order. -/
theorem sortStep_stable_sort_spec (k : SortKey) (d : Bool) (l : List Customer) :
    (sortStep k d l ~ l)
    ∧ (sortStep k d l).Sorted (fun a b => cmpCustomer k d a b ≤ 0)
    ∧ (sortStep k d l).Pairwise (fun a b => fieldVal k a = none → fieldVal k b = none)
    ∧ (∀ a b : Customer, cmpCustomer k d a b = 0 → [a, b] <+ l → [a, b] <+ sortStep k d l)
    ∧ (∀ a b : Customer, ∀ s t : String,
        fieldVal k a = some (.str s) → fieldVal k b = some (.str t) →
        cmpCustomer k false a b = cmpChars (lowerData s) (lowerData t))
    ∧ (∀ a b : Customer, ∀ x y : FieldVal,
        fieldVal k a = some x → fieldVal k b = some y →
        cmpCustomer k true a b = -(cmpCustomer k false a b))
    ∧ (∀ a b : Customer, fieldVal k a = none ∨ fieldVal k b = none →
        cmpCustomer k true a b = cmpCustomer k false a b) := by
  refine ⟨sortStep_perm k d l, sortStep_sorted k d l, ?_, ?_, ?_, ?_, ?_⟩
  · exact (sortStep_sorted k d l).imp fun hle ha => cmpCustomer_none_le ha hle
  · intro a b h0 hsub
    exact List.pair_sublist_insertionSort (le_of_eq h0) hsub
  · intro a b s t ha hb
    simp [cmpCustomer, cmpOptV, ha, hb, cmpVal]
  · intro a b x y ha hb
    simp [cmpCustomer, cmpOptV, ha, hb]
  · intro a b h
    rcases h with h | h <;> rw [cmpCustomer, cmpCustomer, h] <;>
      cases hx : fieldVal k a <;> cases hy : fieldVal k b <;> simp [cmpOptV]

/-- Closed instance of C1's tie-stability clause: `custA` and `custAnn2`
share the name "Ann Smith" and keep their input order after sorting by
name. -/
theorem sortStep_stable_sort_spec_witness :
    [custA, custAnn2] <+ sortStep .name false [custB, custA, custAnn2] :=
  (sortStep_stable_sort_spec .name false [custB, custA, custAnn2]).2.2.2.1 custA custAnn2
    (by decide) (by decide)

/-- On non-null field values, the desc comparator between `a` and `b` is
the asc comparator between `b` and `a`. -/
theorem cmpCustomer_true_eq_swap_false {k : SortKey} {a b : Customer} {x y : FieldVal}
    (hx : fieldVal k a = some x) (hy : fieldVal k b = some y) :
    cmpCustomer k true a b = cmpCustomer k false b a := by
  simp [cmpCustomer, hx, hy, cmpOptV, cmpVal_swap x y]

/-- C6 counterexample: `custA` and `custAnn2` tie on `name` ("Ann Smith");
the stable sort keeps their input order under both directions, so the
desc sort is not the reverse of the asc sort. -/
theorem sortStep_desc_not_reverse_counterexample :
    sortStep .name true [custA, custAnn2] ≠ (sortStep .name false [custA, custAnn2]).reverse := by
  decide

/-- C6 amended: when every sortKey value in the collection is non-null and
no two customers tie under the asc comparator, sorting desc yields exactly
the reverse of sorting asc.  (With ties, both directions keep the tied
customers in input order — see the stability clause of C1 — and null
values sort last in both directions, so the reversal fails there.) -/
theorem sortStep_desc_reverse_of_no_ties (k : SortKey) (l : List Customer)
    (h0 : ∀ c ∈ l, fieldVal k c ≠ none)
    (h1 : l.Pairwise (fun a b => cmpCustomer k false a b ≠ 0)) :
    sortStep k true l = (sortStep k false l).reverse := by
  have hne_symm : ∀ {x y : Customer},
      cmpCustomer k false x y ≠ 0 → cmpCustomer k false y x ≠ 0 := by
    intro x y h
    have hs := cmpCustomer_swap k false x y
    omega
  have hDp : sortStep k true l ~ l := sortStep_perm k true l
  have hAp : sortStep k false l ~ l := sortStep_perm k false l
  -- tie-freedom transfers along the permutations
  have hDne : (sortStep k true l).Pairwise (fun a b => cmpCustomer k false a b ≠ 0) :=
    (hDp.pairwise_iff fun h => hne_symm h).mpr h1
  have hAne : (sortStep k false l).Pairwise (fun a b => cmpCustomer k false a b ≠ 0) :=
    (hAp.pairwise_iff fun h => hne_symm h).mpr h1
  -- the desc result is strictly decreasing under the asc comparator
  have hDs : (sortStep k true l).Pairwise (fun a b => cmpCustomer k false b a < 0) := by
    refine ((sortStep_sorted k true l).and hDne).imp_of_mem ?_
    intro a b ha hb hab
    obtain ⟨hle, hne⟩ := hab
    obtain ⟨x, hx⟩ := Option.ne_none_iff_exists'.mp (h0 a (hDp.mem_iff.mp ha))
    obtain ⟨y, hy⟩ := Option.ne_none_iff_exists'.mp (h0 b (hDp.mem_iff.mp hb))
    rw [cmpCustomer_true_eq_swap_false hx hy] at hle
    have := hne_symm hne
    omega
  -- the reversed asc result is also strictly decreasing under it
  have hAs : (sortStep k false l).reverse.Pairwise (fun a b => cmpCustomer k false b a < 0) := by
    rw [List.pairwise_reverse]
    refine ((sortStep_sorted k false l).and hAne).imp_of_mem ?_
    intro a b _ _ hab
    omega
  have hperm : sortStep k true l ~ (sortStep k false l).reverse :=
    hDp.trans (((sortStep k false l).reverse_perm).trans hAp).symm
  haveI : IsAntisymm Customer (fun a b => cmpCustomer k false b a < 0) := by
    constructor
    intro a b hab hba
    exfalso
    have hs := cmpCustomer_swap k false a b
    omega
  exact List.eq_of_perm_of_sorted hperm hDs hAs

/-- Closed instance of the amended C6: three customers with distinct
non-null names sort to exactly reversed orders under asc and desc. -/
theorem sortStep_desc_reverse_of_no_ties_witness :
    sortStep .name true [custA, custB] = (sortStep .name false [custA, custB]).reverse :=
  sortStep_desc_reverse_of_no_ties .name [custA, custB] (by decide) (by decide)

/-! ## Filter step -/

/-- The executable substring test agrees with list infix containment. -/
theorem hasSub_iff (hay needle : List Char) : hasSub hay needle = true ↔ needle <:+: hay := by
  induction hay with
  | nil => simp [hasSub]
  | cons h t ih => simp [hasSub, ih, List.infix_cons_iff]

/-- C2: with a non-empty searchText the filter step retains exactly the
customers whose name or email contains the search text as a
case-insensitive substring — the output is a sublist of the input (order
and multiplicity preserved), every retained customer matches, and every
matching customer is retained; with empty searchText the filter is a
no-op. -/
theorem filterStep_spec (s : String) (l : List Customer) :
    (s ≠ "" →
      (filterStep s l) <+ l
      ∧ (∀ c ∈ filterStep s l,
          lowerData s <:+: lowerData c.name ∨ lowerData s <:+: lowerData c.email)
      ∧ (∀ c ∈ l,
          (lowerData s <:+: lowerData c.name ∨ lowerData s <:+: lowerData c.email) →
          c ∈ filterStep s l))
    ∧ (s = "" → filterStep s l = l) := by
  constructor
  · intro hs
    rw [filterStep, if_neg hs]
    refine ⟨List.filter_sublist l, ?_, ?_⟩
    · intro c hc
      have hm := (List.mem_filter.mp hc).2
      simpa [matchesSearch, hasSub_iff] using hm
    · intro c hc hm
      refine List.mem_filter.mpr ⟨hc, ?_⟩
      simpa [matchesSearch, hasSub_iff] using hm
  · intro hs
    rw [filterStep, if_pos hs]

/-- Closed instance of C2: the search "ANN" retains `custA` (name
"Ann Smith") from the two-customer store. -/
theorem filterStep_spec_witness : custA ∈ filterStep "ANN" storeAB :=
  ((filterStep_spec "ANN" storeAB).1 (by decide)).2.2 custA (by decide)
    (Or.inl (by decide))

/-! ## Pagination -/

/-- C3: for page ≥ 1 and limit ≥ 1, GET /customers returns element-for-
element the summaries of the slice [(page-1)*limit, (page-1)*limit+limit)
of the filtered-and-sorted collection; the returned page has
min(limit, remaining) entries; an out-of-range page yields an empty
customers array rather than an error; totalItems is the filtered
(pre-pagination) count; and totalPages is ceil(totalItems / limit),
characterized by totalItems ≤ totalPages * limit < totalItems + limit. -/
theorem getCustomersHandler_spec (search : String) (k : SortKey) (d : Bool)
    (page limit : Nat) (store : List Customer)
    (hp : 1 ≤ page) (hl : 1 ≤ limit) :
    (∀ i, i < limit →
      (getCustomersHandler search k d page limit store).customers[i]? =
        ((sortStep k d (filterStep search store))[(page - 1) * limit + i]?).map
          getCustomerSummary)
    ∧ (getCustomersHandler search k d page limit store).customers.length =
        min limit ((sortStep k d (filterStep search store)).length - (page - 1) * limit)
    ∧ ((sortStep k d (filterStep search store)).length ≤ (page - 1) * limit →
        (getCustomersHandler search k d page limit store).customers = [])
    ∧ (getCustomersHandler search k d page limit store).pagination.totalItems =
        (filterStep search store).length
    ∧ (filterStep search store).length ≤
        (getCustomersHandler search k d page limit store).pagination.totalPages * limit
    ∧ (getCustomersHandler search k d page limit store).pagination.totalPages * limit <
        (filterStep search store).length + limit := by
  refine ⟨?_, ?_, ?_, rfl, ?_, ?_⟩
  · intro i hi
    simp only [getCustomersHandler, List.getElem?_map, List.getElem?_take_of_lt hi,
      List.getElem?_drop]
  · simp [getCustomersHandler]
  · intro h
    simp [getCustomersHandler, List.drop_eq_nil_of_le h]
  · show (filterStep search store).length ≤
      ((filterStep search store).length + limit - 1) / limit * limit
    have hmod := Nat.div_add_mod ((filterStep search store).length + limit - 1) limit
    have hlt : ((filterStep search store).length + limit - 1) % limit < limit :=
      Nat.mod_lt _ hl
    have hcomm := Nat.mul_comm limit (((filterStep search store).length + limit - 1) / limit)
    omega
  · show ((filterStep search store).length + limit - 1) / limit * limit <
      (filterStep search store).length + limit
    have hmod := Nat.div_add_mod ((filterStep search store).length + limit - 1) limit
    have hlt : ((filterStep search store).length + limit - 1) % limit < limit :=
      Nat.mod_lt _ hl
    have hcomm := Nat.mul_comm limit (((filterStep search store).length + limit - 1) / limit)
    omega

/-- Closed instance of C3 at page 2, limit 1 over the two-customer store. -/
theorem getCustomersHandler_spec_witness :
    (getCustomersHandler "" .name false 2 1 storeAB).customers[0]? =
      ((sortStep .name false (filterStep "" storeAB))[1]?).map getCustomerSummary :=
  (getCustomersHandler_spec "" .name false 2 1 storeAB (by decide) (by decide)).1 0
    (by decide)

/-! ## PATCH /customers -/

/-- The status update fails exactly when no customer has the given id. -/
theorem updateCustomerStatus_none_iff (cid st : String) :
    ∀ store : List Customer,
      updateCustomerStatus cid st store = none ↔ ∀ c ∈ store, c.id ≠ cid
  | [] => by simp [updateCustomerStatus]
  | c :: rest => by
    by_cases h : c.id = cid
    · simp [updateCustomerStatus, h]
    · simp [updateCustomerStatus, h, updateCustomerStatus_none_iff cid st rest]

/-- C7: PATCH /customers with a status outside {active, churned, prospect}
always responds 400 (the missing-fields or the invalid-status error) and
leaves the store completely unchanged; and it responds 404 only when the
status is valid and no customer in the store has the given id. -/
theorem patchCustomersHandler_invalid_status_spec (cid st : String) (store : List Customer) :
    (st ∉ validStatuses →
      ((patchCustomersHandler cid st store).1 = .missingFields ∨
        (patchCustomersHandler cid st store).1 = .invalidStatus)
      ∧ (patchCustomersHandler cid st store).2 = store)
    ∧ ((patchCustomersHandler cid st store).1 = .notFound →
        st ∈ validStatuses ∧ ∀ c ∈ store, c.id ≠ cid) := by
  constructor
  · intro hst
    unfold patchCustomersHandler
    split_ifs with h1 h2
    · exact ⟨Or.inl rfl, rfl⟩
    · exact absurd (by simpa using h2) hst
    · exact ⟨Or.inr rfl, rfl⟩
  · intro h
    unfold patchCustomersHandler at h
    split_ifs at h with h1 h2
    rcases hm : updateCustomerStatus cid st store with _ | s
    · rw [hm] at h
      exact ⟨by simpa using h2, (updateCustomerStatus_none_iff cid st store).mp hm⟩
    · rw [hm] at h
      exact absurd h (by simp)

/-- Closed instance of C7: the status "archived" is rejected with a 400 and
the store is untouched. -/
theorem patchCustomersHandler_invalid_status_spec_witness :
    ((patchCustomersHandler "c1" "archived" storeAB).1 = .missingFields ∨
      (patchCustomersHandler "c1" "archived" storeAB).1 = .invalidStatus)
    ∧ (patchCustomersHandler "c1" "archived" storeAB).2 = storeAB :=
  (patchCustomersHandler_invalid_status_spec "c1" "archived" storeAB).1 (by decide)

/-- C10: an empty customerId or an empty status short-circuits PATCH
/customers to the missing-fields 400 before validation or lookup, with the
store unchanged; in particular an empty customerId never yields a 404. -/
theorem patchCustomersHandler_empty_fields_spec (cid st : String) (store : List Customer) :
    (cid = "" ∨ st = "" →
      patchCustomersHandler cid st store = (.missingFields, store))
    ∧ (cid = "" → (patchCustomersHandler cid st store).1 ≠ .notFound) := by
  have hmf : cid = "" ∨ st = "" →
      patchCustomersHandler cid st store = (.missingFields, store) := by
    intro h
    unfold patchCustomersHandler
    rw [if_pos h]
  refine ⟨hmf, ?_⟩
  intro h hn
  rw [hmf (Or.inl h)] at hn
  exact absurd hn (by simp)

/-- Closed instance of C10: an empty customerId yields the missing-fields
400 even though it matches no customer. -/
theorem patchCustomersHandler_empty_fields_spec_witness :
    patchCustomersHandler "" "active" storeAB = (.missingFields, storeAB) :=
  (patchCustomersHandler_empty_fields_spec "" "active" storeAB).1 (Or.inl rfl)

/-! ## GET /customers/{id}/orders and the getOrCreate fallback -/

/-- C8: GET /customers/{id}/orders never returns 404: `getCustomerById`
always yields a customer (on a miss it creates and inserts a fallback
customer), so the handler's not-found branch is unreachable and the
response is always the full order graph. -/
theorem getOrdersHandler_never_404 (g : GenDraws) (id : String) (store : List Customer) :
    (getCustomerByIdOpt g id store).1.isSome = true
    ∧ (getOrdersHandler g id store).1 ≠ .notFoundErr
    ∧ ∃ os, (getOrdersHandler g id store).1 = .ok os := by
  rcases h : store.find? (fun c => c.id == id) with _ | c
  · refine ⟨?_, ?_, ?_⟩ <;> simp [getOrdersHandler, getCustomerByIdOpt, h]
  · refine ⟨?_, ?_, ?_⟩ <;> simp [getOrdersHandler, getCustomerByIdOpt, h]

/-- C9: calling getOrCreate twice with the same id absent from the store
returns the same customer both times, the second call does not change the
store again, and the store grows by exactly one entry in total. -/
theorem getCustomerByIdOpt_twice (g gSecond : GenDraws) (id : String) (store : List Customer)
    (h : ∀ c ∈ store, c.id ≠ id) :
    (getCustomerByIdOpt gSecond id (getCustomerByIdOpt g id store).2).1 =
      (getCustomerByIdOpt g id store).1
    ∧ (getCustomerByIdOpt gSecond id (getCustomerByIdOpt g id store).2).2 =
      (getCustomerByIdOpt g id store).2
    ∧ (getCustomerByIdOpt g id store).2.length = store.length + 1 := by
  have hf : store.find? (fun c => c.id == id) = none :=
    List.find?_eq_none.mpr fun x hx => by simpa using h x hx
  have hfst : getCustomerByIdOpt g id store =
      (some (createCustomerWithId id "Fallback Customer" "fallback@example.com" g),
        store ++ [createCustomerWithId id "Fallback Customer" "fallback@example.com" g]) := by
    unfold getCustomerByIdOpt
    rw [hf]
  have h2 : (store ++ [createCustomerWithId id "Fallback Customer" "fallback@example.com" g]).find?
      (fun x => x.id == id) =
      some (createCustomerWithId id "Fallback Customer" "fallback@example.com" g) := by
    rw [List.find?_append, hf]
    simp [createCustomerWithId]
  rw [hfst]
  refine ⟨?_, ?_, by simp⟩ <;> simp [getCustomerByIdOpt, h2]

/-- Closed instance of C9: the id "zzz" is absent from the two-customer
store; two getOrCreate calls agree and the store grows by one. -/
theorem getCustomerByIdOpt_twice_witness :
    (getCustomerByIdOpt gTest "zzz" (getCustomerByIdOpt gTest "zzz" storeAB).2).1 =
      (getCustomerByIdOpt gTest "zzz" storeAB).1
    ∧ (getCustomerByIdOpt gTest "zzz" (getCustomerByIdOpt gTest "zzz" storeAB).2).2 =
      (getCustomerByIdOpt gTest "zzz" storeAB).2
    ∧ (getCustomerByIdOpt gTest "zzz" storeAB).2.length = storeAB.length + 1 :=
  getCustomerByIdOpt_twice gTest gTest "zzz" storeAB (by decide)

/-! ## Frame properties of updateOrderItemSize -/

theorem setItemSize_frame {iid : String} {sz : CustomSize} :
    ∀ {items items' : List OrderItem}, setItemSize iid sz items = some items' →
      ∃ i : Nat, items'.length = items.length
        ∧ (∀ j : Nat, j ≠ i → items'[j]? = items[j]?)
        ∧ ∃ it : OrderItem, items[i]? = some it ∧ it.orderItemId = iid
          ∧ items'[i]? = some { it with customSize := sz }
  | [], _, h => by simp [setItemSize] at h
  | it :: rest, items', h => by
    simp only [setItemSize] at h
    split_ifs at h with hid
    · obtain rfl := Option.some.inj h
      refine ⟨0, by simp, ?_, it, by simp, hid, by simp⟩
      intro j hj
      cases j with
      | zero => exact absurd rfl hj
      | succ j => simp
    · rcases hr : setItemSize iid sz rest with _ | rest'
      · rw [hr] at h; simp at h
      · rw [hr] at h
        obtain rfl := Option.some.inj h
        obtain ⟨i, hlen, hother, itm, hit, hid2, hit'⟩ := setItemSize_frame hr
        refine ⟨i + 1, by simp [hlen], ?_, itm, by simpa using hit, hid2, by simpa using hit'⟩
        intro j hj
        cases j with
        | zero => simp
        | succ j =>
          simp only [List.getElem?_cons_succ]
          exact hother j (fun hji => hj (by rw [hji]))

theorem setOrderItemInOrders_frame {oid iid : String} {sz : CustomSize} :
    ∀ {os os' : List Order}, setOrderItemInOrders oid iid sz os = some os' →
      ∃ n : Nat, os'.length = os.length
        ∧ (∀ m : Nat, m ≠ n → os'[m]? = os[m]?)
        ∧ ∃ (o : Order) (its' : List OrderItem), os[n]? = some o ∧ o.orderId = oid
          ∧ os'[n]? = some { o with items := its' }
          ∧ setItemSize iid sz o.items = some its'
  | [], _, h => by simp [setOrderItemInOrders] at h
  | o :: rest, os', h => by
    simp only [setOrderItemInOrders] at h
    split_ifs at h with hid
    · rcases hr : setItemSize iid sz o.items with _ | its'
      · rw [hr] at h; simp at h
      · rw [hr] at h
        obtain rfl := Option.some.inj h
        refine ⟨0, by simp, ?_, o, its', by simp, hid, by simp, hr⟩
        intro m hm
        cases m with
        | zero => exact absurd rfl hm
        | succ m => simp
    · rcases hr : setOrderItemInOrders oid iid sz rest with _ | rest'
      · rw [hr] at h; simp at h
      · rw [hr] at h
        obtain rfl := Option.some.inj h
        obtain ⟨n, hlen, hother, oo, its', ho, hoid, ho', hset⟩ :=
          setOrderItemInOrders_frame hr
        refine ⟨n + 1, by simp [hlen], ?_, oo, its', by simpa using ho, hoid,
          by simpa using ho', hset⟩
        intro m hm
        cases m with
        | zero => simp
        | succ m =>
          simp only [List.getElem?_cons_succ]
          exact hother m (fun hmn => hm (by rw [hmn]))

theorem updateOrderItemSize_frame {cid oid iid : String} {sz : CustomSize} :
    ∀ {store store' : List Customer}, updateOrderItemSize cid oid iid sz store = some store' →
      ∃ p : Nat, store'.length = store.length
        ∧ (∀ q : Nat, q ≠ p → store'[q]? = store[q]?)
        ∧ ∃ (c : Customer) (os' : List Order), store[p]? = some c ∧ c.id = cid
          ∧ store'[p]? = some { c with _orders := os' }
          ∧ setOrderItemInOrders oid iid sz c._orders = some os'
  | [], _, h => by simp [updateOrderItemSize] at h
  | c :: rest, store', h => by
    simp only [updateOrderItemSize] at h
    split_ifs at h with hid
    · rcases hr : setOrderItemInOrders oid iid sz c._orders with _ | os'
      · rw [hr] at h; simp at h
      · rw [hr] at h
        obtain rfl := Option.some.inj h
        refine ⟨0, by simp, ?_, c, os', by simp, hid, by simp, hr⟩
        intro q hq
        cases q with
        | zero => exact absurd rfl hq
        | succ q => simp
    · rcases hr : updateOrderItemSize cid oid iid sz rest with _ | rest'
      · rw [hr] at h; simp at h
      · rw [hr] at h
        obtain rfl := Option.some.inj h
        obtain ⟨p, hlen, hother, cc, os', hc, hcid, hc', hset⟩ :=
          updateOrderItemSize_frame hr
        refine ⟨p + 1, by simp [hlen], ?_, cc, os', by simpa using hc, hcid,
          by simpa using hc', hset⟩
        intro q hq
        cases q with
        | zero => simp
        | succ q =>
          simp only [List.getElem?_cons_succ]
          exact hother q (fun hqp => hq (by rw [hqp]))

/-! ## Invariant preservation -/

theorem setItemSize_map_price {iid : String} {sz : CustomSize} :
    ∀ {items items' : List OrderItem}, setItemSize iid sz items = some items' →
      items'.map OrderItem.price = items.map OrderItem.price
  | [], _, h => by simp [setItemSize] at h
  | it :: rest, items', h => by
    simp only [setItemSize] at h
    split_ifs at h with hid
    · obtain rfl := Option.some.inj h
      simp
    · rcases hr : setItemSize iid sz rest with _ | rest'
      · rw [hr] at h; simp at h
      · rw [hr] at h
        obtain rfl := Option.some.inj h
        simp [setItemSize_map_price hr]

theorem setItemSize_sumPrices {iid : String} {sz : CustomSize}
    {items items' : List OrderItem} (h : setItemSize iid sz items = some items') :
    sumPrices items' = sumPrices items := by
  rw [sumPrices, sumPrices, setItemSize_map_price h]

theorem setOrderItemInOrders_inv {oid iid : String} {sz : CustomSize} :
    ∀ {os os' : List Order}, setOrderItemInOrders oid iid sz os = some os' →
      (∀ o ∈ os, orderInv o) → ∀ o ∈ os', orderInv o
  | [], _, h => by simp [setOrderItemInOrders] at h
  | o :: rest, os', h => by
    simp only [setOrderItemInOrders] at h
    split_ifs at h with hid
    · rcases hr : setItemSize iid sz o.items with _ | its'
      · rw [hr] at h; simp at h
      · rw [hr] at h
        obtain rfl := Option.some.inj h
        intro hinv o' ho'
        rcases ho' with _ | ⟨_, hmem⟩
        · show Order.totalAmount _ = _
          have : o.totalAmount = sumPrices o.items := hinv o (by simp)
          simpa [orderInv, setItemSize_sumPrices hr] using this
        · exact hinv o' (List.mem_cons_of_mem _ hmem)
    · rcases hr : setOrderItemInOrders oid iid sz rest with _ | rest'
      · rw [hr] at h; simp at h
      · rw [hr] at h
        obtain rfl := Option.some.inj h
        intro hinv o' ho'
        rcases ho' with _ | ⟨_, hmem⟩
        · exact hinv o (by simp)
        · exact setOrderItemInOrders_inv hr (fun x hx => hinv x (List.mem_cons_of_mem _ hx)) o' hmem

theorem updateOrderItemSize_inv {cid oid iid : String} {sz : CustomSize} :
    ∀ {store store' : List Customer}, updateOrderItemSize cid oid iid sz store = some store' →
      storeInv store → storeInv store'
  | [], _, h => by simp [updateOrderItemSize] at h
  | c :: rest, store', h => by
    simp only [updateOrderItemSize] at h
    split_ifs at h with hid
    · rcases hr : setOrderItemInOrders oid iid sz c._orders with _ | os'
      · rw [hr] at h; simp at h
      · rw [hr] at h
        obtain rfl := Option.some.inj h
        intro hinv c' hc'
        rcases hc' with _ | ⟨_, hmem⟩
        · exact setOrderItemInOrders_inv hr (hinv c (by simp))
        · exact hinv c' (List.mem_cons_of_mem _ hmem)
    · rcases hr : updateOrderItemSize cid oid iid sz rest with _ | rest'
      · rw [hr] at h; simp at h
      · rw [hr] at h
        obtain rfl := Option.some.inj h
        intro hinv c' hc'
        rcases hc' with _ | ⟨_, hmem⟩
        · exact hinv c (by simp)
        · exact updateOrderItemSize_inv hr (fun x hx => hinv x (List.mem_cons_of_mem _ hx)) c' hmem

theorem updateCustomerStatus_inv {cid st : String} :
    ∀ {store store' : List Customer}, updateCustomerStatus cid st store = some store' →
      storeInv store → storeInv store'
  | [], _, h => by simp [updateCustomerStatus] at h
  | c :: rest, store', h => by
    simp only [updateCustomerStatus] at h
    split_ifs at h with hid
    · obtain rfl := Option.some.inj h
      intro hinv c' hc'
      rcases hc' with _ | ⟨_, hmem⟩
      · exact hinv c (by simp)
      · exact hinv c' (List.mem_cons_of_mem _ hmem)
    · rcases hr : updateCustomerStatus cid st rest with _ | rest'
      · rw [hr] at h; simp at h
      · rw [hr] at h
        obtain rfl := Option.some.inj h
        intro hinv c' hc'
        rcases hc' with _ | ⟨_, hmem⟩
        · exact hinv c (by simp)
        · exact updateCustomerStatus_inv hr (fun x hx => hinv x (List.mem_cons_of_mem _ hx)) c' hmem

theorem applyMutation_inv (store : List Customer) (m : Mutation)
    (hinv : storeInv store) : storeInv (applyMutation store m) := by
  cases m with
  | setStatus cid st =>
    rw [applyMutation]
    rcases hr : updateCustomerStatus cid st store with _ | s
    · exact hinv
    · exact updateCustomerStatus_inv hr hinv
  | setSize cid oid iid sz =>
    rw [applyMutation]
    rcases hr : updateOrderItemSize cid oid iid sz store with _ | s
    · exact hinv
    · exact updateOrderItemSize_inv hr hinv

theorem applyMutations_inv :
    ∀ (ms : List Mutation) (store : List Customer),
      storeInv store → storeInv (applyMutations ms store)
  | [], _, hinv => hinv
  | m :: ms, store, hinv =>
    applyMutations_inv ms (applyMutation store m) (applyMutation_inv store m hinv)

/-- C4: a successful `updateOrderItemSize` replaces exactly the targeted
item's `customSize` — the item keeps its id, name, category and price,
all sibling items, the containing order's id, date and `totalAmount`, the
customer's other fields, and every other customer are unchanged — and the
invariant totalAmount = sum of items[].price holds for generated orders
and is preserved by any sequence of mutations. -/
theorem updateOrderItemSize_frame_spec :
    (∀ (cid oid iid : String) (sz : CustomSize) (store store' : List Customer),
      updateOrderItemSize cid oid iid sz store = some store' →
      ∃ p : Nat, store'.length = store.length
        ∧ (∀ q : Nat, q ≠ p → store'[q]? = store[q]?)
        ∧ ∃ c c' : Customer, store[p]? = some c ∧ store'[p]? = some c'
          ∧ c.id = cid
          ∧ c'.id = c.id ∧ c'.name = c.name ∧ c'.email = c.email
          ∧ c'.status = c.status ∧ c'.revenue = c.revenue
          ∧ c'.createdAt = c.createdAt ∧ c'.orderCount = c.orderCount
          ∧ c'.lastOrderDate = c.lastOrderDate
          ∧ c'._orders.length = c._orders.length
          ∧ ∃ n : Nat, (∀ m : Nat, m ≠ n → c'._orders[m]? = c._orders[m]?)
            ∧ ∃ o o' : Order, c._orders[n]? = some o ∧ c'._orders[n]? = some o'
              ∧ o.orderId = oid
              ∧ o'.orderId = o.orderId ∧ o'.orderDate = o.orderDate
              ∧ o'.totalAmount = o.totalAmount
              ∧ o'.items.length = o.items.length
              ∧ ∃ i : Nat, (∀ j : Nat, j ≠ i → o'.items[j]? = o.items[j]?)
                ∧ ∃ it : OrderItem, o.items[i]? = some it ∧ it.orderItemId = iid
                  ∧ o'.items[i]? = some { it with customSize := sz })
    ∧ (∀ draws, ∀ o ∈ generateOrders draws, orderInv o)
    ∧ (∀ (ms : List Mutation) (store : List Customer),
        storeInv store → storeInv (applyMutations ms store)) := by
  refine ⟨?_, ?_, applyMutations_inv⟩
  · intro cid oid iid sz store store' h
    obtain ⟨p, hlen, hother, c, os', hc, hcid, hc', hsetOs⟩ := updateOrderItemSize_frame h
    obtain ⟨n, holen, hoother, o, its', ho, hooid, ho', hsetIts⟩ :=
      setOrderItemInOrders_frame hsetOs
    obtain ⟨i, hilen, hiother, it, hit, hitiid, hit'⟩ := setItemSize_frame hsetIts
    exact ⟨p, hlen, hother, c, { c with _orders := os' }, hc, hc', hcid,
      rfl, rfl, rfl, rfl, rfl, rfl, rfl, rfl, holen,
      n, hoother, o, { o with items := its' }, ho, ho', hooid,
      rfl, rfl, rfl, hilen,
      i, hiother, it, hit, hitiid, hit'⟩
  · intro draws o ho
    rw [generateOrders] at ho
    have hmem := (List.perm_insertionSort _ _).mem_iff.mp ho
    obtain ⟨d, _, rfl⟩ := List.mem_map.mp hmem
    rfl

/-- Closed instance of C4's invariant clause: the two-customer store
satisfies the invariant and still does after a setSize mutation. -/
theorem updateOrderItemSize_frame_spec_witness :
    storeInv (applyMutations [.setSize "c1" "o1" "i1" szA] storeAB) :=
  updateOrderItemSize_frame_spec.2.2 [.setSize "c1" "o1" "i1" szA] storeAB
    (by unfold storeInv orderInv; decide)

/-! ## PATCH /customers/{id}/orders size validation -/

/-- C5 counterexample: a chest measurement of -1 is a number, so the
handler's `typeof` check passes and the request proceeds to the store
lookup and succeeds — it is not rejected with the 400 that the claim
requires for negative values. -/
theorem patchOrdersHandler_negative_size_counterexample :
    (patchOrdersHandler gTest "c1" "o1" "i1"
        (some ⟨some (.num (-1)), some (.num 0), some (.num 0)⟩) storeAB).1 =
      .ok (some { itemA with customSize := ⟨-1, 0, 0⟩ })
    ∧ (-1 : Int) < 0 := by
  constructor
  · decide
  · decide

/-- C5 amended: the handler rejects with the size-format 400 exactly when
one of chest, waist, hips is missing or not a number (`typeof` check
only); whenever all three are numbers — including negative ones, with no
sign or finiteness check — it proceeds past validation to the store
lookup; a missing customSize object yields the missing-fields 400. -/
theorem patchOrdersHandler_number_check_spec (g : GenDraws) (id oid iid : String)
    (sz : SizeBody) (store : List Customer) (ho : oid ≠ "") (hi : iid ≠ "") :
    ((isNumber sz.chest && isNumber sz.waist && isNumber sz.hips) = false →
      patchOrdersHandler g id oid iid (some sz) store = (.invalidSize, store))
    ∧ ((isNumber sz.chest && isNumber sz.waist && isNumber sz.hips) = true →
      (patchOrdersHandler g id oid iid (some sz) store).1 ≠ .invalidSize
      ∧ (patchOrdersHandler g id oid iid (some sz) store).1 ≠ .missingFields)
    ∧ patchOrdersHandler g id oid iid none store = (.missingFields, store) := by
  have hguard : ¬(oid = "" ∨ iid = "") := fun h => h.elim ho hi
  refine ⟨?_, ?_, rfl⟩
  · intro hb
    simp only [patchOrdersHandler]
    rw [if_neg hguard, hb]
    simp
  · intro hb
    simp only [patchOrdersHandler]
    rw [if_neg hguard, hb, if_pos rfl]
    rcases updateOrderItemSize id oid iid
        ⟨numVal sz.chest, numVal sz.waist, numVal sz.hips⟩ store with _ | s
    · exact ⟨by simp, by simp⟩
    · exact ⟨by simp, by simp⟩

/-- Closed instance of the amended C5: a missing chest field is rejected
with the size-format 400 and the store is unchanged. -/
theorem patchOrdersHandler_number_check_spec_witness :
    patchOrdersHandler gTest "c1" "o1" "i1"
      (some ⟨none, some (.num 1), some (.num 2)⟩) storeAB = (.invalidSize, storeAB) :=
  (patchOrdersHandler_number_check_spec gTest "c1" "o1" "i1"
    ⟨none, some (.num 1), some (.num 2)⟩ storeAB (by decide) (by decide)).1 (by decide)

end Dashboard
